import Mathlib

/-!
# Verification of the inkmate token contracts

A shallow embedding of the correctness-critical parts of the inkmate
repository, together with proofs about the embedded code:

* the ECDSA public-key recovery front end
  (`src/common/src/crypto/ecrecover.rs`),
* the ERC20 permit (EIP-2612) flow (`src/contracts/src/tokens/erc20.rs`),
* the ERC721A sparse-ownership ledger with batch mint, transfer and burn
  (`src/contracts/src/tokens/erc721a.rs`).

Machine integers are embedded as `Nat`.  The 64-bit storage fields of the
ERC721A address data are updated modulo `2 ^ 64` (the Rust code performs
the `+`/`-` updates on `U64` values, which wrap in the deployed release
build); the lossy conversion `U64::from` of a `U256` panics when the
value does not fit in 64 bits, embedded as divergence (`none`).
Addresses are `Nat`, with `0` playing the role of the zero address.
`U256` indices (token ids, counters) are embedded as unbounded `Nat`.

Cryptographic primitives (the secp256k1 point recovery and keccak) are
not computed; they enter the model as parameters, so every theorem about
the recovery front end or the permit flow holds for an arbitrary
instantiation of those parameters.
-/

namespace Inkmate

/-- Decidable equality of `Except` results, so that concrete runs of
the embedded operations can be checked by `decide`. -/
instance instDecEqExcept {ε α : Type} [DecidableEq ε] [DecidableEq α] :
    DecidableEq (Except ε α) := fun x y =>
  match x, y with
  | Except.ok a, Except.ok b =>
    if h : a = b then isTrue (by rw [h])
    else isFalse (by intro hc; cases hc; exact h rfl)
  | Except.ok _, Except.error _ => isFalse (by intro hc; cases hc)
  | Except.error _, Except.ok _ => isFalse (by intro hc; cases hc)
  | Except.error e, Except.error f =>
    if h : e = f then isTrue (by rw [h])
    else isFalse (by intro hc; cases hc; exact h rfl)

/-! ## ECDSA recovery front end

Embeds `src/common/src/crypto/ecrecover.rs`.  The byte-array plumbing of
the Rust trait method `ecrecover` (assembling the 128-byte precompile
input) is lossless: bytes 32..62 are always zero and byte 63 carries the
`v` value, so the model passes the digest, the `v` byte and `r`, `s`
directly to the implementation. -/

/-- The order of the secp256k1 group, `n`. -/
def SECP256K1_N : Nat :=
  0xFFFFFFFFFFFFFFFFFFFFFFFFFFFFFFFEBAAEDCE6AF48A03BBFD25E8CD0364141

/-- An error during ECDSA verification (`EcdsaError` in the source). -/
inductive EcdsaError where
  | ecdsaError
deriving DecidableEq, Repr

/-- The parameters of the recovery computation that the source delegates
to the `k256` crate: `VerifyingKey::recover_from_prehash` (curve point
recovery from digest, `r`, low-`s` and recovery id; `none` embeds the
`Err` branch) and the keccak hash of the uncompressed encoding of the
recovered key. -/
structure RecoverEnv where
  recoverKey : Nat → Nat → Nat → Nat → Option Nat
  keccak : Nat → Nat

/-- Embeds `ecrecover_implementation` (the reference implementation in
`src/common/src/crypto/ecrecover.rs`, lines 78–114): the `v` byte must
be 27 or 28, otherwise the zero address is returned with `Ok`; the
signature is parsed (`r`, `s` must lie in `[1, n-1]`), normalized to
low-`s` form with the recovery id flipped when normalization occurs, and
the recovered key is hashed, keeping the low 20 bytes. -/
def ecrecover_implementation (env : RecoverEnv) (digest vByte r s : Nat) :
    Except EcdsaError Nat :=
  if vByte = 27 ∨ vByte = 28 then
    if 1 ≤ r ∧ r < SECP256K1_N ∧ 1 ≤ s ∧ s < SECP256K1_N then
      let recid := vByte - 27
      let p := if SECP256K1_N < 2 * s then (SECP256K1_N - s, recid ^^^ 1)
               else (s, recid)
      match env.recoverKey digest r p.1 p.2 with
      | none => Except.error EcdsaError.ecdsaError
      | some key => Except.ok (env.keccak key % 2 ^ 160)
    else Except.error EcdsaError.ecdsaError
  else Except.ok 0

/-- Embeds the trait method `ecrecover`
(`src/common/src/crypto/ecrecover.rs`, lines 28–57): `v ≤ 1` is mapped
to the host convention `v + 27` before the implementation is invoked,
any other `v` is passed through unchanged. -/
def ecrecover (env : RecoverEnv) (digest v r s : Nat) :
    Except EcdsaError Nat :=
  ecrecover_implementation env digest (if v ≤ 1 then v + 27 else v) r s

/-! ## ERC20 with permit

Embeds the state and the `permit` entry point of
`src/contracts/src/tokens/erc20.rs`.  The keccak chain producing the
EIP-712 digest (`struct_hash` over the permit typehash, owner, spender,
value, nonce and deadline, then `signed_hash` over the `\x19\x01`
prefix, the domain separator and the struct hash) is embedded as an
abstract function `digest` of the five permit fields; the precompile
call `PrecompileEcRecover::ecrecover` is embedded as an abstract
fallible function `ecre`. -/

/-- Errors of the ERC20 contract (the `ERC20Error` enum). -/
inductive ERC20Error where
  | insufficientBalance
  | insufficientAllowance
  | permitExpired
  | invalidPermit
deriving DecidableEq, Repr

/-- Storage of the ERC20 contract (`sol_storage!` block): allowances and
permit nonces.  Balances and total supply are not touched by `permit`
and are omitted. -/
structure ERC20State where
  allowances : Nat → Nat → Nat
  nonces : Nat → Nat

/-- The collaborator functions `permit` uses: the EIP-712 digest of
`(owner, spender, value, nonce, deadline)` (chain id and contract
address are fixed for a deployed instance) and the ecrecover precompile
call on `(signed_hash, v, r, s)`. -/
structure PermitEnv where
  digest : Nat → Nat → Nat → Nat → Nat → Nat
  ecre : Nat → Nat → Nat → Nat → Except Unit Nat

/-- Embeds `permit` (`src/contracts/src/tokens/erc20.rs`, lines
231–286).  The returned pair carries the call's result together with
the storage as the function body leaves it, so that the write performed
before a failing signature check stays observable. -/
def permit (env : PermitEnv) (st : ERC20State)
    (timestamp owner spender value deadline v r s : Nat) :
    Except ERC20Error Unit × ERC20State :=
  if deadline < timestamp then
    (Except.error ERC20Error.permitExpired, st)
  else
    let nonce := st.nonces owner
    let st1 : ERC20State :=
      { st with nonces := fun a => if a = owner then nonce + 1 else st.nonces a }
    let signed_hash := env.digest owner spender value nonce deadline
    match env.ecre signed_hash v r s with
    | Except.error _ => (Except.error ERC20Error.invalidPermit, st1)
    | Except.ok recovered =>
      if recovered = 0 ∨ recovered ≠ owner then
        (Except.error ERC20Error.invalidPermit, st1)
      else
        (Except.ok (),
         { st1 with
            allowances := fun o sp =>
              if o = recovered ∧ sp = spender then value
              else st1.allowances o sp })

/-! ## ERC721A sparse ownership ledger

Embeds `src/contracts/src/tokens/erc721a.rs`.  `start_token_id` is `0`
(value of `_start_token_id`).  The caller identity `msg::sender()` and
the host clock `block::timestamp()` enter each operation as explicit
arguments.  Operations that can run the backward ownership scan return
`Option`: `none` embeds the arithmetic underflow of the scan loop
(`curr -= U256::from(1)` below id 0), which never terminates with a
value; `some` carries the `Result` of the Rust function. -/

/-- Errors of the ERC721A contract (the `ERC721Error` enum; variants
not reachable in the embedded operations are omitted). -/
inductive ERC721Error where
  | balanceQueryForZeroAddress
  | mintToZeroAddress
  | mintZeroQuantity
  | ownerQueryForNonexistentToken
  | approvalQueryForNonexistentToken
  | transferCallerNotOwnerNorApproved
  | transferFromIncorrectOwner
  | transferToZeroAddress
deriving DecidableEq, Repr

/-- A ledger slot (`TokenOwnership` in the `sol_storage!` block). -/
structure TokenOwnership where
  addr : Nat
  start_timestamp : Nat
  burned : Bool
deriving DecidableEq, Repr

/-- The zero-initialized slot the storage collaborator yields for an
absent key. -/
def TokenOwnership.init : TokenOwnership := ⟨0, 0, false⟩

/-- Per-address aggregate (`AddressData` in the `sol_storage!` block);
all four fields are `uint64` in storage. -/
structure AddressData where
  balance : Nat
  number_minted : Nat
  number_burned : Nat
  aux : Nat
deriving DecidableEq, Repr

/-- Zero-initialized address data. -/
def AddressData.init : AddressData := ⟨0, 0, 0, 0⟩

/-- Modulus of the 64-bit storage fields. -/
def U64MOD : Nat := 2 ^ 64

/-- Events emitted by the ERC721A operations. -/
inductive Event where
  | transferEv (src dst token_id : Nat)
  | approvalEv (owner approved token_id : Nat)
deriving DecidableEq, Repr

/-- Storage of the ERC721A contract (the `sol_storage!` block). -/
structure ERC721AState where
  current_index : Nat
  burn_counter : Nat
  ownerships : Nat → TokenOwnership
  address_data : Nat → AddressData
  token_approvals : Nat → Nat
  operator_approvals : Nat → Nat → Bool

/-- The deployed contract's initial storage: everything
zero-initialized. -/
def ERC721AState.empty : ERC721AState :=
  ⟨0, 0, fun _ => TokenOwnership.init, fun _ => AddressData.init,
   fun _ => 0, fun _ _ => false⟩

/-- Point update of the ownership map. -/
def setOwnership (st : ERC721AState) (i : Nat) (o : TokenOwnership) :
    ERC721AState :=
  { st with ownerships := fun j => if j = i then o else st.ownerships j }

/-- Point update of the address-data map. -/
def setAddressData (st : ERC721AState) (a : Nat) (d : AddressData) :
    ERC721AState :=
  { st with address_data := fun b => if b = a then d else st.address_data b }

/-- Point update of the per-token approval map. -/
def setTokenApproval (st : ERC721AState) (i toAddr : Nat) : ERC721AState :=
  { st with token_approvals := fun j => if j = i then toAddr else st.token_approvals j }

/-- The backward scan loop of `_ownership_of` (lines 161–169): starting
from `token_id`, inspect ids `token_id - 1`, `token_id - 2`, … and stop
at the first slot with a non-zero owner.  `scanOwnership st t` inspects
ids below `t`; `none` embeds the loop running past id `0` (arithmetic
underflow of `curr`), which never produces a value. -/
def scanOwnership (st : ERC721AState) : Nat → Option TokenOwnership
  | 0 => none
  | k + 1 =>
    let o := st.ownerships k
    if o.addr ≠ 0 then some o else scanOwnership st k

/-- Embeds `_ownership_of` (lines 150–177): in-range check, direct hit
on a non-burned slot with explicit owner, otherwise backward scan. -/
def _ownership_of (st : ERC721AState) (token_id : Nat) :
    Option (Except ERC721Error TokenOwnership) :=
  if token_id < st.current_index then
    let o := st.ownerships token_id
    if o.burned then some (Except.error ERC721Error.ownerQueryForNonexistentToken)
    else if o.addr ≠ 0 then some (Except.ok o)
    else
      match scanOwnership st token_id with
      | none => none
      | some o2 => some (Except.ok o2)
  else some (Except.error ERC721Error.ownerQueryForNonexistentToken)

/-- Embeds `owner_of` (lines 521–523). -/
def owner_of (st : ERC721AState) (token_id : Nat) :
    Option (Except ERC721Error Nat) :=
  match _ownership_of st token_id with
  | none => none
  | some (Except.error e) => some (Except.error e)
  | some (Except.ok o) => some (Except.ok o.addr)

/-- Embeds `_exists` (lines 192–196). -/
def _exists (st : ERC721AState) (token_id : Nat) : Bool :=
  if token_id < st.current_index then !(st.ownerships token_id).burned
  else false

/-- Embeds `get_approved` (lines 562–569). -/
def get_approved (st : ERC721AState) (token_id : Nat) :
    Except ERC721Error Nat :=
  if _exists st token_id then Except.ok (st.token_approvals token_id)
  else Except.error ERC721Error.approvalQueryForNonexistentToken

/-- Embeds `is_approved_for_all` (lines 625–627). -/
def is_approved_for_all (st : ERC721AState) (owner operator : Nat) : Bool :=
  st.operator_approvals owner operator

/-- Embeds `balance_of` (lines 511–518). -/
def balance_of (st : ERC721AState) (owner : Nat) : Except ERC721Error Nat :=
  if owner = 0 then Except.error ERC721Error.balanceQueryForZeroAddress
  else Except.ok (st.address_data owner).balance

/-- Embeds `total_supply` (lines 489–491):
`current_index - burn_counter - start_token_id`. -/
def total_supply (st : ERC721AState) : Nat :=
  st.current_index - st.burn_counter - 0

/-- Embeds `_approve` (lines 183–190): write the approval slot and
return the `Approval` event. -/
def _approve (st : ERC721AState) (toAddr token_id owner : Nat) :
    ERC721AState × Event :=
  (setTokenApproval st token_id toAddr, Event.approvalEv owner toAddr token_id)

/-- The `is_approved_or_owner` expression shared by `_transfer` (lines
322–324) and `_burn` (lines 415–417), with Rust's short-circuit `||`
and the `?` on `get_approved`. -/
def isApprovedOrOwner (st : ERC721AState) (sender owner token_id : Nat) :
    Except ERC721Error Bool :=
  if sender = owner then Except.ok true
  else if is_approved_for_all st owner sender then Except.ok true
  else
    match get_approved st token_id with
    | Except.error e => Except.error e
    | Except.ok a => Except.ok (a = sender)

/-- Embeds `_mint` (lines 218–266).  `U64::from(quantity)` panics when
the quantity does not fit in 64 bits, which `none` embeds (the call
traps before any write); below that bound the conversion is the
identity and the `uint64` additions wrap modulo `2 ^ 64`.  The event
loop emits one `Transfer` from the zero address per minted id in
increasing order, and `current_index` advances to
`start_token_id + quantity`. -/
def _mint (st : ERC721AState) (toAddr quantity timestamp : Nat) :
    Option (Except ERC721Error (ERC721AState × List Event)) :=
  let start_token_id := st.current_index
  if toAddr = 0 then some (Except.error ERC721Error.mintToZeroAddress)
  else if quantity = 0 then some (Except.error ERC721Error.mintZeroQuantity)
  else if U64MOD ≤ quantity then none
  else
    let d := st.address_data toAddr
    let st1 := setAddressData st toAddr
      { d with
          balance := (d.balance + quantity) % U64MOD
          number_minted := (d.number_minted + quantity) % U64MOD }
    let o := st1.ownerships start_token_id
    let st2 := setOwnership st1 start_token_id
      { o with addr := toAddr, start_timestamp := timestamp }
    let events := (List.range quantity).map fun i =>
      Event.transferEv 0 toAddr (start_token_id + i)
    let st3 := { st2 with current_index := start_token_id + quantity }
    some (Except.ok (st3, events))

/-- The mutation part of `_transfer` (lines 337–371), run after all
checks have passed: approval write (`_approve(to, token_id, from)` as
the source has it), balance moves, explicit slot write at `token_id`,
and the successor-materialization block for `token_id + 1`. -/
def transferWrite (st : ERC721AState) (prev : TokenOwnership)
    (fromAddr toAddr token_id timestamp : Nat) : ERC721AState :=
  let stA := (_approve st toAddr token_id fromAddr).1
  let dFrom := stA.address_data fromAddr
  let stB := setAddressData stA fromAddr
    { dFrom with balance := (dFrom.balance + U64MOD - 1) % U64MOD }
  let dTo := stB.address_data toAddr
  let stC := setAddressData stB toAddr
    { dTo with balance := (dTo.balance + 1) % U64MOD }
  let cur := stC.ownerships token_id
  let stD := setOwnership stC token_id
    { cur with addr := toAddr, start_timestamp := timestamp }
  let next_token_id := token_id + 1
  let nxt := stD.ownerships next_token_id
  if nxt.addr = 0 then
    if next_token_id ≠ stD.current_index then
      setOwnership stD next_token_id
        { nxt with addr := fromAddr, start_timestamp := prev.start_timestamp }
    else stD
  else stD

/-- Embeds `_transfer` (lines 314–377): resolve the previous ownership,
check the `from` match, authorization and the zero `to` address, then
perform the writes of `transferWrite` and emit the `Approval` and
`Transfer` events (in emission order). -/
def _transfer (st : ERC721AState)
    (sender fromAddr toAddr token_id timestamp : Nat) :
    Option (Except ERC721Error (ERC721AState × List Event)) :=
  match _ownership_of st token_id with
  | none => none
  | some (Except.error e) => some (Except.error e)
  | some (Except.ok prev) =>
    if prev.addr ≠ fromAddr then
      some (Except.error ERC721Error.transferFromIncorrectOwner)
    else
      match isApprovedOrOwner st sender fromAddr token_id with
      | Except.error e => some (Except.error e)
      | Except.ok appr =>
        if ¬appr then
          some (Except.error ERC721Error.transferCallerNotOwnerNorApproved)
        else if toAddr = 0 then
          some (Except.error ERC721Error.transferToZeroAddress)
        else
          some (Except.ok
            (transferWrite st prev fromAddr toAddr token_id timestamp,
             [Event.approvalEv fromAddr toAddr token_id,
              Event.transferEv fromAddr toAddr token_id]))

/-- The mutation part of `_burn` (lines 428–469), run after the checks:
approval cleared to the zero address, balance and `number_burned`
update, the slot at `token_id` marked burned with owner kept, the
successor-materialization block, and the burn counter increment. -/
def burnWrite (st : ERC721AState) (prev : TokenOwnership)
    (fromAddr token_id timestamp : Nat) : ERC721AState :=
  let stA := (_approve st 0 token_id fromAddr).1
  let d := stA.address_data fromAddr
  let stB := setAddressData stA fromAddr
    { d with
        balance := (d.balance + U64MOD - 1) % U64MOD
        number_burned := (d.number_burned + 1) % U64MOD }
  let cur := stB.ownerships token_id
  let stC := setOwnership stB token_id
    { cur with addr := fromAddr, start_timestamp := timestamp, burned := true }
  let next_token_id := token_id + 1
  let nxt := stC.ownerships next_token_id
  let stD :=
    if nxt.addr = 0 then
      if next_token_id ≠ stC.current_index then
        setOwnership stC next_token_id
          { nxt with addr := fromAddr, start_timestamp := prev.start_timestamp }
      else stC
    else stC
  { stD with burn_counter := stD.burn_counter + 1 }

/-- Embeds `_burn` (lines 410–472). -/
def _burn (st : ERC721AState) (sender token_id : Nat)
    (approval_check : Bool) (timestamp : Nat) :
    Option (Except ERC721Error (ERC721AState × List Event)) :=
  match _ownership_of st token_id with
  | none => none
  | some (Except.error e) => some (Except.error e)
  | some (Except.ok prev) =>
    let fromAddr := prev.addr
    let check : Except ERC721Error Unit :=
      if approval_check then
        match isApprovedOrOwner st sender fromAddr token_id with
        | Except.error e => Except.error e
        | Except.ok appr =>
          if appr then Except.ok ()
          else Except.error ERC721Error.transferCallerNotOwnerNorApproved
      else Except.ok ()
    match check with
    | Except.error e => some (Except.error e)
    | Except.ok _ =>
      some (Except.ok
        (burnWrite st prev fromAddr token_id timestamp,
         [Event.approvalEv fromAddr 0 token_id,
          Event.transferEv fromAddr 0 token_id]))

/-- `n` sequential calls of `_mint` with quantity `1` (the
single-mint reference for the batch-mint equivalence), threading the
state and concatenating the event streams; `none` if any call fails. -/
def mintIter (toAddr timestamp : Nat) :
    Nat → ERC721AState → Option (ERC721AState × List Event)
  | 0, st => some (st, [])
  | n + 1, st =>
    match _mint st toAddr 1 timestamp with
    | some (Except.ok (st1, evs1)) =>
      match mintIter toAddr timestamp n st1 with
      | none => none
      | some (st2, evs2) => some (st2, evs1 ++ evs2)
    | _ => none

/-- Ledger states reachable from the deployed contract by successful
mint, transfer and burn operations. -/
inductive Reachable : ERC721AState → Prop where
  | init : Reachable ERC721AState.empty
  | mint {st st' : ERC721AState} {toAddr quantity timestamp : Nat}
      {evs : List Event} :
      Reachable st →
      _mint st toAddr quantity timestamp = some (Except.ok (st', evs)) →
      Reachable st'
  | transfer {st st' : ERC721AState}
      {sender fromAddr toAddr token_id timestamp : Nat} {evs : List Event} :
      Reachable st →
      _transfer st sender fromAddr toAddr token_id timestamp =
        some (Except.ok (st', evs)) →
      Reachable st'
  | burn {st st' : ERC721AState} {sender token_id timestamp : Nat}
      {approval_check : Bool} {evs : List Event} :
      Reachable st →
      _burn st sender token_id approval_check timestamp =
        some (Except.ok (st', evs)) →
      Reachable st'

/-- Scan-termination invariant: below every id in `[0, current_index)`
there is a slot (at the id itself or lower) with an explicitly recorded
non-zero owner, so the backward scan of `_ownership_of` stops. -/
def ScanInv (st : ERC721AState) : Prop :=
  ∀ t, t < st.current_index → ∃ j, j ≤ t ∧ (st.ownerships j).addr ≠ 0

/-- Sum of the per-owner `balance` fields over a finite set of
addresses, in the 64-bit modular ring the fields live in. -/
def balanceSum (st : ERC721AState) (S : Finset Nat) : ZMod U64MOD :=
  Finset.sum S fun a => (((st.address_data a).balance : Nat) : ZMod U64MOD)

/-- `S` contains every address whose `balance` field is non-zero. -/
def coversOwners (st : ERC721AState) (S : Finset Nat) : Prop :=
  ∀ a, (st.address_data a).balance ≠ 0 → a ∈ S

/-! ## Concrete scenario states and witness environments -/

/-- Ledger after `mint(1, 1)` at timestamp 10 from the empty state
(one token, id 0, owner address 1). -/
def stOne : ERC721AState :=
  match _mint ERC721AState.empty 1 1 10 with
  | some (Except.ok (st, _)) => st
  | _ => ERC721AState.empty

/-- Ledger after `stOne` followed by `_transfer` of id 0 from address 1
to address 2 (sender 1) at timestamp 11. -/
def stOneT : ERC721AState :=
  match _transfer stOne 1 1 2 0 11 with
  | some (Except.ok (st, _)) => st
  | _ => ERC721AState.empty

/-- Ledger after `mint(1, 5)` at timestamp 100 from the empty state
(ids 0–4, owner address 1). -/
def stMint5 : ERC721AState :=
  match _mint ERC721AState.empty 1 5 100 with
  | some (Except.ok (st, _)) => st
  | _ => ERC721AState.empty

/-- Ledger after `stMint5` followed by `_burn(2)` (sender 1, approval
check on) at timestamp 200. -/
def stBurn2 : ERC721AState :=
  match _burn stMint5 1 2 true 200 with
  | some (Except.ok (st, _)) => st
  | _ => ERC721AState.empty

/-- Ledger after `mint(1, 2)` at timestamp 50 from the empty state
(ids 0 and 1, owner address 1; only the slot at id 0 is explicit). -/
def stTwo : ERC721AState :=
  match _mint ERC721AState.empty 1 2 50 with
  | some (Except.ok (st, _)) => st
  | _ => ERC721AState.empty

/-- Ledger after `stTwo` followed by `_transfer` of id 0 from address 1
to address 2 (sender 1) at timestamp 60; materializes the slot at
id 1. -/
def stTwoT : ERC721AState :=
  match _transfer stTwo 1 1 2 0 60 with
  | some (Except.ok (st, _)) => st
  | _ => ERC721AState.empty

/-- Ledger after `mint(1, 2 ^ 64 - 1)` at timestamp 5 from the empty
state. -/
def stBigA : ERC721AState :=
  match _mint ERC721AState.empty 1 (2 ^ 64 - 1) 5 with
  | some (Except.ok (st, _)) => st
  | _ => ERC721AState.empty

/-- Ledger after a second `mint(1, 2 ^ 64 - 1)` at timestamp 6: the
64-bit balance field of address 1 wraps around. -/
def stBigB : ERC721AState :=
  match _mint stBigA 1 (2 ^ 64 - 1) 6 with
  | some (Except.ok (st, _)) => st
  | _ => ERC721AState.empty

/-- A concrete recovery environment whose point-recovery step always
fails (sufficient for exercising the input-validation paths). -/
def recEnvNone : RecoverEnv := ⟨fun _ _ _ _ => none, fun k => k⟩

/-- A concrete recovery environment whose point-recovery step always
yields key 7. -/
def recEnvSeven : RecoverEnv := ⟨fun _ _ _ _ => some 7, fun k => k⟩

/-- A concrete permit environment: the digest is the permit nonce
itself, and recovery succeeds with address 1 exactly on digest 0. -/
def permitEnvW : PermitEnv :=
  ⟨fun _ _ _ n _ => n,
   fun h _ _ _ => if h = 0 then Except.ok 1 else Except.error ()⟩

/-- Fresh ERC20 storage: all allowances and nonces zero. -/
def st20 : ERC20State := ⟨fun _ _ => 0, fun _ => 0⟩

/-! # Theorems -/

/-! ## Recovery front end: malleability handling and `v` validation -/

/-- Positivity of the group order, used when reasoning about the
normalization branch. -/
theorem SECP256K1_N_pos : 0 < SECP256K1_N := by norm_num [SECP256K1_N]

/-- C6: for a recovery id `v ∈ {0,1}` and a high-form `s`
(`2 * s > n`), `ecrecover` on `(digest, v, r, s)` equals `ecrecover` on
`(digest, v XOR 1, r, n - s)`: the implementation normalizes to low-`s`
and flips the recovery id, so the two malleable forms of one signature
recover to the identical address (for every instantiation of the
point-recovery and hash parameters). -/
theorem ecrecover_malleable_pair_same_address
    (env : RecoverEnv) (digest v r s : Nat)
    (hv : v ≤ 1) (hs : SECP256K1_N < 2 * s) :
    ecrecover env digest v r s
      = ecrecover env digest (v ^^^ 1) r (SECP256K1_N - s) := by
  have hN : 0 < SECP256K1_N := SECP256K1_N_pos
  have hs1 : 1 ≤ s := by omega
  rcases Nat.le_one_iff_eq_zero_or_eq_one.mp hv with rfl | rfl
  all_goals {
    unfold ecrecover ecrecover_implementation
    norm_num
    by_cases hsN : s < SECP256K1_N
    · have h1 : 1 ≤ SECP256K1_N - s := by omega
      have h2 : SECP256K1_N - s < SECP256K1_N := by omega
      have h3 : ¬ (SECP256K1_N < 2 * (SECP256K1_N - s)) := by omega
      have h4 : 0 < s := hs1
      have h5 : 0 < SECP256K1_N := hN
      simp [hs, hsN, hs1, h1, h2, h3, h4, h5]
    · have h0 : SECP256K1_N - s = 0 := by omega
      simp [hsN, h0]
  }

/-- C7 (counterexample): at the concrete input `v = 2`, `ecrecover`
does not report an error: it returns `Ok` with the zero address. -/
theorem ecrecover_invalid_v_counterexample :
    ecrecover recEnvNone 0 2 1 1 = Except.ok 0
      ∧ ecrecover recEnvNone 0 2 1 1 ≠ Except.error EcdsaError.ecdsaError := by
  constructor
  · decide
  · decide

/-- C7 (amended): for every recovery-id byte `v` outside
`{0, 1, 27, 28}`, `ecrecover` returns `Ok` with the zero address (not an
error), for all digests, `r` and `s` and every instantiation of the
recovery parameters. -/
theorem ecrecover_invalid_v_returns_zero_address
    (env : RecoverEnv) (digest v r s : Nat)
    (h0 : v ≠ 0) (h1 : v ≠ 1) (h27 : v ≠ 27) (h28 : v ≠ 28) :
    ecrecover env digest v r s = Except.ok 0 := by
  unfold ecrecover ecrecover_implementation
  have hv : ¬ v ≤ 1 := by omega
  simp [hv, h27, h28]

/-- Witness for the amended C7 theorem at `v = 2`. -/
theorem ecrecover_invalid_v_returns_zero_address_witness :
    ecrecover recEnvNone 3 2 4 5 = Except.ok 0 :=
  ecrecover_invalid_v_returns_zero_address recEnvNone 3 2 4 5
    (by decide) (by decide) (by decide) (by decide)

/-- Witness for C6 at `v = 0`, `r = 1`, `s = n - 1` under the
environment whose point recovery yields key 7. -/
theorem ecrecover_malleable_pair_same_address_witness :
    ecrecover recEnvSeven 0 0 1 (SECP256K1_N - 1)
      = ecrecover recEnvSeven 0 (0 ^^^ 1) 1 (SECP256K1_N - (SECP256K1_N - 1)) :=
  ecrecover_malleable_pair_same_address recEnvSeven 0 0 1 (SECP256K1_N - 1)
    (by decide) (by norm_num [SECP256K1_N])

/-! ## Permit: nonce consumption, replay protection, expiry -/

/-- C3: whenever a `permit` call passes the expiry check, the owner
nonce is persisted incremented by exactly one — also on calls that then
fail with `InvalidPermit`; and once a call has succeeded, resubmitting
the identical parameters fails with `InvalidPermit`, provided the
signature validates only for the digest built from the consumed nonce
(the cryptographic binding of the signature to its nonce, supplied as a
hypothesis on the abstract recovery function). -/
theorem permit_consumes_nonce_and_blocks_replay
    (env : PermitEnv) (st : ERC20State)
    (ts ts2 owner spender value deadline v r s : Nat)
    (hts : ts ≤ deadline) (hts2 : ts2 ≤ deadline)
    (hbind : ∀ n2, n2 ≠ st.nonces owner →
      env.ecre (env.digest owner spender value n2 deadline) v r s
        ≠ Except.ok owner) :
    ((permit env st ts owner spender value deadline v r s).2.nonces owner
        = st.nonces owner + 1)
    ∧ ((permit env st ts owner spender value deadline v r s).1
          = Except.ok () →
        (permit env (permit env st ts owner spender value deadline v r s).2
            ts2 owner spender value deadline v r s).1
          = Except.error ERC20Error.invalidPermit) := by
  have hlt : ¬ deadline < ts := Nat.not_lt.mpr hts
  have hlt2 : ¬ deadline < ts2 := Nat.not_lt.mpr hts2
  unfold permit
  simp only [hlt, hlt2, if_false, ite_false]
  cases hcall : env.ecre (env.digest owner spender value (st.nonces owner) deadline) v r s with
  | error e =>
    dsimp only
    exact ⟨by simp, fun hok => absurd hok (by simp)⟩
  | ok recovered =>
    dsimp only
    by_cases h0 : recovered = 0 ∨ recovered ≠ owner
    · rw [if_pos h0]
      exact ⟨by simp, fun hok => absurd hok (by simp)⟩
    · push_neg at h0
      obtain ⟨hne0, rfl⟩ := h0
      rw [if_neg (by simp [hne0])]
      refine ⟨by simp, fun _ => ?_⟩
      simp only [if_pos rfl]
      have hnonce : st.nonces recovered + 1 ≠ st.nonces recovered := by omega
      cases hcall2 : env.ecre
          (env.digest recovered spender value (st.nonces recovered + 1) deadline) v r s with
      | error e => simp [hcall2]
      | ok rec2 =>
        have hne2 : rec2 ≠ recovered := fun h =>
          hbind (st.nonces recovered + 1) hnonce (h ▸ hcall2)
        simp [hcall2, hne2]

/-- Witness for C3 at a fresh ERC20 state under the concrete permit
environment. -/
theorem permit_consumes_nonce_and_blocks_replay_witness :
    ((permit permitEnvW st20 1 1 2 100 5 0 0 0).2.nonces 1
        = st20.nonces 1 + 1)
    ∧ ((permit permitEnvW st20 1 1 2 100 5 0 0 0).1 = Except.ok () →
        (permit permitEnvW (permit permitEnvW st20 1 1 2 100 5 0 0 0).2
            1 1 2 100 5 0 0 0).1
          = Except.error ERC20Error.invalidPermit) :=
  permit_consumes_nonce_and_blocks_replay permitEnvW st20 1 1 1 2 100 5 0 0 0
    (by decide) (by decide)
    (by
      intro n2 h
      have hn : n2 ≠ 0 := by simpa [st20] using h
      simp [permitEnvW, hn])

/-- C8: a permit signed by `A` for spender `B`, value 100 and deadline
`T` (valid for `A`'s current nonce) fails with `PermitExpired` at block
time `T + 1` leaving the storage unchanged, and succeeds at block time
`T - 1`, after which `allowance(A, B)` is 100. -/
theorem permit_expiry_scenario
    (env : PermitEnv) (st : ERC20State) (A B T v r s : Nat)
    (hT : 1 ≤ T) (hA : A ≠ 0)
    (hsig : env.ecre (env.digest A B 100 (st.nonces A) T) v r s
        = Except.ok A) :
    (permit env st (T + 1) A B 100 T v r s).1
        = Except.error ERC20Error.permitExpired
    ∧ (permit env st (T + 1) A B 100 T v r s).2 = st
    ∧ (permit env st (T - 1) A B 100 T v r s).1 = Except.ok ()
    ∧ (permit env st (T - 1) A B 100 T v r s).2.allowances A B = 100 := by
  have h1 : T < T + 1 := Nat.lt_succ_self T
  have h2 : ¬ T < T - 1 := by omega
  unfold permit
  simp only [h1, h2, ite_true, ite_false, if_true, if_false]
  rw [hsig]
  refine ⟨trivial, trivial, ?_, ?_⟩ <;> simp [hA]

/-- Witness for C8 with `A = 1`, `B = 2`, `T = 5` under the concrete
permit environment. -/
theorem permit_expiry_scenario_witness :
    (permit permitEnvW st20 (5 + 1) 1 2 100 5 0 0 0).1
        = Except.error ERC20Error.permitExpired
    ∧ (permit permitEnvW st20 (5 + 1) 1 2 100 5 0 0 0).2 = st20
    ∧ (permit permitEnvW st20 (5 - 1) 1 2 100 5 0 0 0).1 = Except.ok ()
    ∧ (permit permitEnvW st20 (5 - 1) 1 2 100 5 0 0 0).2.allowances 1 2
        = 100 :=
  permit_expiry_scenario permitEnvW st20 1 2 5 0 0 0
    (by decide) (by decide) (by decide)

/-! ## ERC721A: concrete lifecycle scenarios -/

/-- C1 (divergence witness): after a successful `_transfer` of token 0
from address 1 to address 2, the per-token approval of token 0 is the
*new owner* 2, not the zero address, and `get_approved(0)` returns 2.
`_transfer` passes `to` to `_approve` (line 338) although its comment
says it clears the approval from the previous owner, and `_burn` passes
the zero address at the same point (line 429). -/
theorem transfer_does_not_clear_token_approval :
    _transfer stOne 1 1 2 0 11
      = some (Except.ok (stOneT,
          [Event.approvalEv 1 2 0, Event.transferEv 1 2 0]))
    ∧ stOneT.token_approvals 0 = 2
    ∧ stOneT.token_approvals 0 ≠ 0
    ∧ get_approved stOneT 0 = Except.ok 2 := by
  exact ⟨rfl, by decide, by decide, by decide⟩

/-- C4: from the empty ledger, `mint(A, 5)` for `A = 1` mints ids 0–4,
then `burn(2)`: `owner_of(3)` returns `A`, `owner_of(2)` fails with
`OwnerQueryForNonexistentToken`, and `total_supply()` is 4. -/
theorem mint5_burn2_scenario :
    _mint ERC721AState.empty 1 5 100
      = some (Except.ok (stMint5,
          [Event.transferEv 0 1 0, Event.transferEv 0 1 1,
           Event.transferEv 0 1 2, Event.transferEv 0 1 3,
           Event.transferEv 0 1 4]))
    ∧ _burn stMint5 1 2 true 200
      = some (Except.ok (stBurn2,
          [Event.approvalEv 1 0 2, Event.transferEv 1 0 2]))
    ∧ owner_of stBurn2 3 = some (Except.ok 1)
    ∧ owner_of stBurn2 2
        = some (Except.error ERC721Error.ownerQueryForNonexistentToken)
    ∧ total_supply stBurn2 = 4 := by
  exact ⟨rfl, rfl, by decide, by decide, by decide⟩

/-! ## ERC721A: structural lemmas about the embedded operations -/

/-- The backward scan only ever stops at a slot with a non-zero
owner. -/
theorem scanOwnership_some_addr_ne {st : ERC721AState} :
    ∀ {t o}, scanOwnership st t = some o → o.addr ≠ 0 := by
  intro t
  induction t with
  | zero => intro o h; simp [scanOwnership] at h
  | succ k ih =>
    intro o h
    unfold scanOwnership at h
    by_cases hk : (st.ownerships k).addr ≠ 0
    · rw [if_pos hk] at h
      cases h
      exact hk
    · rw [if_neg hk] at h
      exact ih h

/-- If below `t` some slot has a non-zero owner, the backward scan
terminates with a value. -/
theorem scanOwnership_total {st : ERC721AState} :
    ∀ {t}, (∃ j, j < t ∧ (st.ownerships j).addr ≠ 0) →
      ∃ o, scanOwnership st t = some o := by
  intro t
  induction t with
  | zero => rintro ⟨j, hj, _⟩; omega
  | succ k ih =>
    rintro ⟨j, hj, hja⟩
    unfold scanOwnership
    by_cases hk : (st.ownerships k).addr ≠ 0
    · exact ⟨st.ownerships k, by simp [hk]⟩
    · have hjk : j < k := by
        rcases Nat.lt_succ_iff_lt_or_eq.mp hj with h | rfl
        · exact h
        · exact absurd hja hk
      obtain ⟨o, ho⟩ := ih ⟨j, hjk, hja⟩
      exact ⟨o, by simp [hk, ho]⟩

/-- A successful `_ownership_of` implies the id is in range, the
returned owner is non-zero, and the slot at the id itself is not
burned. -/
theorem _ownership_of_ok {st : ERC721AState} {token_id : Nat}
    {prev : TokenOwnership}
    (h : _ownership_of st token_id = some (Except.ok prev)) :
    token_id < st.current_index ∧ prev.addr ≠ 0
      ∧ (st.ownerships token_id).burned = false := by
  unfold _ownership_of at h
  by_cases h1 : token_id < st.current_index
  · simp only [h1, if_true, ite_true] at h
    by_cases h2 : (st.ownerships token_id).burned
    · rw [if_pos h2] at h
      simp at h
    · rw [if_neg h2] at h
      by_cases h3 : (st.ownerships token_id).addr ≠ 0
      · rw [if_pos h3] at h
        cases h
        exact ⟨h1, h3, by simpa using h2⟩
      · rw [if_neg h3] at h
        cases hscan : scanOwnership st token_id with
        | none => rw [hscan] at h; simp at h
        | some o2 =>
          rw [hscan] at h
          simp only [Option.some.injEq, Except.ok.injEq] at h
          subst h
          exact ⟨h1, scanOwnership_some_addr_ne hscan, by simpa using h2⟩
  · simp [h1] at h

/-- Inversion of a successful `_transfer`: the checks passed and the
result is the `transferWrite` state with the `Approval`/`Transfer`
event pair. -/
theorem _transfer_ok_inv {st st2 : ERC721AState}
    {sender fromAddr toAddr token_id timestamp : Nat} {evs : List Event}
    (h : _transfer st sender fromAddr toAddr token_id timestamp
          = some (Except.ok (st2, evs))) :
    ∃ prev, _ownership_of st token_id = some (Except.ok prev)
      ∧ prev.addr = fromAddr ∧ toAddr ≠ 0
      ∧ st2 = transferWrite st prev fromAddr toAddr token_id timestamp
      ∧ evs = [Event.approvalEv fromAddr toAddr token_id,
               Event.transferEv fromAddr toAddr token_id] := by
  unfold _transfer at h
  cases hos : _ownership_of st token_id with
  | none => rw [hos] at h; simp at h
  | some res =>
    rw [hos] at h
    cases res with
    | error e => simp at h
    | ok prev =>
      dsimp only at h
      by_cases hf : prev.addr ≠ fromAddr
      · rw [if_pos hf] at h; simp at h
      · rw [if_neg hf] at h
        push_neg at hf
        cases happ : isApprovedOrOwner st sender fromAddr token_id with
        | error e => rw [happ] at h; simp at h
        | ok appr =>
          rw [happ] at h
          dsimp only at h
          by_cases ha : ¬ appr = true
          · rw [if_pos ha] at h; simp at h
          · rw [if_neg ha] at h
            by_cases ht : toAddr = 0
            · rw [if_pos ht] at h; simp at h
            · rw [if_neg ht] at h
              simp only [Option.some.injEq, Except.ok.injEq,
                Prod.mk.injEq] at h
              exact ⟨prev, rfl, hf, ht, h.1.symm, h.2.symm⟩

/-- `transferWrite` does not move the high-water mark. -/
theorem transferWrite_current_index
    (st : ERC721AState) (prev : TokenOwnership)
    (fromAddr toAddr token_id timestamp : Nat) :
    (transferWrite st prev fromAddr toAddr token_id timestamp).current_index
      = st.current_index := by
  unfold transferWrite _approve setTokenApproval setAddressData setOwnership
  dsimp only
  split <;> split <;> (try split) <;> rfl

/-- `transferWrite` does not touch the burn counter. -/
theorem transferWrite_burn_counter
    (st : ERC721AState) (prev : TokenOwnership)
    (fromAddr toAddr token_id timestamp : Nat) :
    (transferWrite st prev fromAddr toAddr token_id timestamp).burn_counter
      = st.burn_counter := by
  unfold transferWrite _approve setTokenApproval setAddressData setOwnership
  dsimp only
  split <;> split <;> (try split) <;> rfl

/-- When the slot after `token_id` is empty and not at the high-water
mark, `transferWrite` materializes it with the pre-transfer owner and
the previous slot's timestamp (on top of the explicit write at
`token_id` itself). -/
theorem transferWrite_ownerships_materialize
    (st : ERC721AState) (prev : TokenOwnership)
    (fromAddr toAddr token_id timestamp : Nat)
    (hempty : (st.ownerships (token_id + 1)).addr = 0)
    (hne : token_id + 1 ≠ st.current_index) :
    (transferWrite st prev fromAddr toAddr token_id timestamp).ownerships
      = fun j =>
          if j = token_id + 1 then
            { st.ownerships (token_id + 1) with
                addr := fromAddr, start_timestamp := prev.start_timestamp }
          else if j = token_id then
            { st.ownerships token_id with
                addr := toAddr, start_timestamp := timestamp }
          else st.ownerships j := by
  unfold transferWrite _approve setTokenApproval setAddressData setOwnership
  dsimp only
  rw [if_neg (by omega : ¬ (token_id + 1 = token_id))]
  rw [if_pos hempty, if_pos hne]

/-- C2: if a successful `_transfer` moves token `k` out while the slot
at `k + 1` is empty (zero owner, not burned) and `k + 1` is below the
high-water mark, then the post-state slot at `k + 1` holds the
pre-transfer owner `fromAddr` with the resolved previous slot's
timestamp, and `owner_of (k + 1)` returns `fromAddr` — not the transfer
recipient. -/
theorem successor_materialization_on_transfer
    (st st2 : ERC721AState) (sender fromAddr toAddr k timestamp : Nat)
    (evs : List Event)
    (hok : _transfer st sender fromAddr toAddr k timestamp
        = some (Except.ok (st2, evs)))
    (hempty : (st.ownerships (k + 1)).addr = 0)
    (hnb : (st.ownerships (k + 1)).burned = false)
    (hlt : k + 1 < st.current_index) :
    ∃ prev, _ownership_of st k = some (Except.ok prev)
      ∧ st2.ownerships (k + 1)
          = { addr := fromAddr, start_timestamp := prev.start_timestamp,
              burned := false }
      ∧ owner_of st2 (k + 1) = some (Except.ok fromAddr)
      ∧ (fromAddr ≠ toAddr →
          owner_of st2 (k + 1) ≠ some (Except.ok toAddr)) := by
  obtain ⟨prev, hos, hpf, ht0, rfl, hevs⟩ := _transfer_ok_inv hok
  have hci := transferWrite_current_index st prev fromAddr toAddr k timestamp
  have hown := transferWrite_ownerships_materialize st prev fromAddr toAddr
    k timestamp hempty (by omega)
  have hslot : (transferWrite st prev fromAddr toAddr k timestamp).ownerships
      (k + 1) = { addr := fromAddr, start_timestamp := prev.start_timestamp,
                  burned := false } := by
    rw [hown]
    simp [hnb]
  have haddr : fromAddr ≠ 0 := hpf ▸ (_ownership_of_ok hos).2.1
  have ho : owner_of (transferWrite st prev fromAddr toAddr k timestamp)
      (k + 1) = some (Except.ok fromAddr) := by
    unfold owner_of _ownership_of
    simp only [hci, hslot]
    simp [hlt, haddr]
  refine ⟨prev, hos, hslot, ho, fun hne hcontra => ?_⟩
  rw [ho] at hcontra
  simp only [Option.some.injEq, Except.ok.injEq] at hcontra
  exact hne hcontra

/-- Witness for C2: mint ids 0 and 1 to address 1, transfer id 0 to
address 2; the slot at id 1 is materialized with owner 1. -/
theorem successor_materialization_on_transfer_witness :
    ∃ prev, _ownership_of stTwo 0 = some (Except.ok prev)
      ∧ stTwoT.ownerships (0 + 1)
          = { addr := 1, start_timestamp := prev.start_timestamp,
              burned := false }
      ∧ owner_of stTwoT (0 + 1) = some (Except.ok 1)
      ∧ ((1 : Nat) ≠ 2 → owner_of stTwoT (0 + 1) ≠ some (Except.ok 2)) :=
  successor_materialization_on_transfer stTwo stTwoT 1 1 2 0 60
    [Event.approvalEv 1 2 0, Event.transferEv 1 2 0]
    rfl (by decide) (by decide) (by decide)

/-- Inversion of a successful `_mint`: arguments validated and the
result state and event stream in closed form. -/
theorem _mint_ok_inv {st st2 : ERC721AState} {toAddr q ts : Nat}
    {evs : List Event}
    (h : _mint st toAddr q ts = some (Except.ok (st2, evs))) :
    toAddr ≠ 0 ∧ q ≠ 0 ∧ q < U64MOD
    ∧ st2.current_index = st.current_index + q
    ∧ st2.burn_counter = st.burn_counter
    ∧ st2.ownerships = (fun j => if j = st.current_index
        then { st.ownerships st.current_index with
                 addr := toAddr, start_timestamp := ts }
        else st.ownerships j)
    ∧ st2.address_data = (fun b => if b = toAddr
        then { st.address_data toAddr with
                 balance := ((st.address_data toAddr).balance + q) % U64MOD,
                 number_minted :=
                   ((st.address_data toAddr).number_minted + q) % U64MOD }
        else st.address_data b)
    ∧ st2.token_approvals = st.token_approvals
    ∧ st2.operator_approvals = st.operator_approvals
    ∧ evs = (List.range q).map
        (fun i => Event.transferEv 0 toAddr (st.current_index + i)) := by
  unfold _mint at h
  by_cases h0 : toAddr = 0
  · rw [if_pos h0] at h; simp at h
  · rw [if_neg h0] at h
    by_cases h1 : q = 0
    · rw [if_pos h1] at h; simp at h
    · rw [if_neg h1] at h
      by_cases h2 : U64MOD ≤ q
      · rw [if_pos h2] at h; simp at h
      · rw [if_neg h2] at h
        simp only [Option.some.injEq, Except.ok.injEq, Prod.mk.injEq] at h
        obtain ⟨hst, hev⟩ := h
        subst hst
        exact ⟨h0, h1, by omega, rfl, rfl, rfl, rfl, rfl, rfl, hev.symm⟩

/-- A single mint of quantity 1 in closed form. -/
theorem _mint_one (st : ERC721AState) (toAddr ts : Nat) (h0 : toAddr ≠ 0) :
    _mint st toAddr 1 ts = some (Except.ok
      ({ st with
          current_index := st.current_index + 1,
          ownerships := fun j => if j = st.current_index
            then { st.ownerships st.current_index with
                     addr := toAddr, start_timestamp := ts }
            else st.ownerships j,
          address_data := fun b => if b = toAddr
            then { st.address_data toAddr with
                     balance := ((st.address_data toAddr).balance + 1)
                       % U64MOD,
                     number_minted :=
                       ((st.address_data toAddr).number_minted + 1) % U64MOD }
            else st.address_data b },
       [Event.transferEv 0 toAddr st.current_index])) := by
  unfold _mint
  rw [if_neg h0, if_neg (by omega : ¬ (1 : Nat) = 0),
    if_neg (by norm_num [U64MOD] : ¬ U64MOD ≤ 1)]
  norm_num [U64MOD, setAddressData, setOwnership, List.range_succ]

/-- Closed form of `n` sequential single mints: high-water mark and the
minted address's 64-bit balance and `number_minted` fields advance by
`n`, other addresses are untouched, and one transfer-from-zero event is
emitted per id in increasing order. -/
theorem mintIter_spec (toAddr timestamp : Nat) (h0 : toAddr ≠ 0) :
    ∀ (n : Nat) (st : ERC721AState),
      ∃ st2 evs, mintIter toAddr timestamp n st = some (st2, evs)
        ∧ st2.current_index = st.current_index + n
        ∧ st2.burn_counter = st.burn_counter
        ∧ (∀ a, a ≠ toAddr → st2.address_data a = st.address_data a)
        ∧ (st2.address_data toAddr).balance
            = (if n = 0 then (st.address_data toAddr).balance
               else ((st.address_data toAddr).balance + n) % U64MOD)
        ∧ (st2.address_data toAddr).number_minted
            = (if n = 0 then (st.address_data toAddr).number_minted
               else ((st.address_data toAddr).number_minted + n) % U64MOD)
        ∧ evs = (List.range n).map
            (fun i => Event.transferEv 0 toAddr (st.current_index + i)) := by
  intro n
  induction n with
  | zero =>
    intro st
    exact ⟨st, [], rfl, by omega, rfl, fun a _ => rfl, by simp, by simp,
      by simp⟩
  | succ m ih =>
    intro st
    have hone := _mint_one st toAddr timestamp h0
    obtain ⟨st2, evs2, hiter, hci, hbc, hother, hbal, hnm, hevs⟩ := ih _
    refine ⟨st2, Event.transferEv 0 toAddr st.current_index :: evs2,
      ?_, ?_, ?_, ?_, ?_, ?_, ?_⟩
    · unfold mintIter
      rw [hone]
      dsimp only
      rw [hiter]
      rfl
    · rw [hci]; dsimp only; omega
    · rw [hbc]
    · intro a ha
      rw [hother a ha]
      dsimp only
      rw [if_neg ha]
    · rw [hbal]
      dsimp only
      rw [if_pos rfl]
      dsimp only
      by_cases hm : m = 0
      · simp [hm]
      · rw [if_neg hm, if_neg (by omega : ¬ m + 1 = 0)]
        rw [Nat.mod_add_mod]
        ring_nf
    · rw [hnm]
      dsimp only
      rw [if_pos rfl]
      dsimp only
      by_cases hm : m = 0
      · simp [hm]
      · rw [if_neg hm, if_neg (by omega : ¬ m + 1 = 0)]
        rw [Nat.mod_add_mod]
        ring_nf
    · rw [hevs]
      dsimp only
      rw [List.range_succ_eq_map, List.map_cons, List.map_map]
      congr 1
      refine List.map_congr_left fun i _ => ?_
      show Event.transferEv 0 toAddr (st.current_index + 1 + i)
        = Event.transferEv 0 toAddr (st.current_index + (i + 1))
      congr 1
      omega

/-- A batch mint in closed form (for quantities below the `U64::from`
panic bound). -/
theorem _mint_closed (st : ERC721AState) (toAddr q ts : Nat)
    (h0 : toAddr ≠ 0) (h1 : q ≠ 0) (h2 : q < U64MOD) :
    _mint st toAddr q ts = some (Except.ok
      ({ st with
          current_index := st.current_index + q,
          ownerships := fun j => if j = st.current_index
            then { st.ownerships st.current_index with
                     addr := toAddr, start_timestamp := ts }
            else st.ownerships j,
          address_data := fun b => if b = toAddr
            then { st.address_data toAddr with
                     balance := ((st.address_data toAddr).balance + q)
                       % U64MOD,
                     number_minted :=
                       ((st.address_data toAddr).number_minted + q) % U64MOD }
            else st.address_data b },
       (List.range q).map
         (fun i => Event.transferEv 0 toAddr (st.current_index + i)))) := by
  unfold _mint
  rw [if_neg h0, if_neg h1, if_neg (Nat.not_le.mpr h2)]
  rfl

/-- C5 (counterexample): at quantity `2 ^ 64` the batch `_mint` hits
the `U64::from(quantity)` panic and produces nothing (`none`), while
`2 ^ 64` sequential single mints all succeed — so the claimed
equivalence for every `n ≥ 1` fails at this input. -/
theorem batch_mint_trap_counterexample :
    _mint ERC721AState.empty 1 (2 ^ 64) 5 = none
    ∧ (∃ stS evS,
        mintIter 1 5 (2 ^ 64) ERC721AState.empty = some (stS, evS)) := by
  constructor
  · rfl
  · obtain ⟨stS, evS, hiter, _⟩ :=
      mintIter_spec 1 5 (by decide) (2 ^ 64) ERC721AState.empty
    exact ⟨stS, evS, hiter⟩

/-- C5 (amended): for quantities `1 ≤ n < 2 ^ 64` (those the
`U64::from` conversion accepts), one `_mint(to, n)` and `n` sequential
`_mint(to, 1)` calls agree on every address's final `balance` and
`number_minted`, on the final high-water mark, and on the emitted
stream of `n` transfer-from-zero events (one per id, in increasing id
order) — even though the batch writes a single ownership slot. -/
theorem batch_mint_matches_sequential_single_mints
    (st : ERC721AState) (toAddr n ts : Nat) (h0 : toAddr ≠ 0) (h1 : 1 ≤ n)
    (h2 : n < U64MOD) :
    ∃ stB evB stS evS,
      _mint st toAddr n ts = some (Except.ok (stB, evB))
      ∧ mintIter toAddr ts n st = some (stS, evS)
      ∧ (∀ a, (stB.address_data a).balance = (stS.address_data a).balance)
      ∧ (∀ a, (stB.address_data a).number_minted
            = (stS.address_data a).number_minted)
      ∧ stB.current_index = stS.current_index
      ∧ evB = evS := by
  obtain ⟨stS, evS, hiter, hci, hbc, hother, hbal, hnm, hevs⟩ :=
    mintIter_spec toAddr ts h0 n st
  have hn0 : n ≠ 0 := by omega
  refine ⟨_, _, stS, evS, _mint_closed st toAddr n ts h0 hn0 h2, hiter,
    ?_, ?_, ?_, ?_⟩
  · intro a
    by_cases ha : a = toAddr
    · subst ha
      dsimp only
      rw [if_pos rfl, hbal, if_neg hn0]
    · dsimp only
      rw [if_neg ha, hother a ha]
  · intro a
    by_cases ha : a = toAddr
    · subst ha
      dsimp only
      rw [if_pos rfl, hnm, if_neg hn0]
    · dsimp only
      rw [if_neg ha, hother a ha]
  · rw [hci]
  · rw [hevs]

/-- Witness for the amended C5 theorem at the empty ledger, `to = 1`,
`n = 2`. -/
theorem batch_mint_matches_sequential_single_mints_witness :
    ∃ stB evB stS evS,
      _mint ERC721AState.empty 1 2 7 = some (Except.ok (stB, evB))
      ∧ mintIter 1 7 2 ERC721AState.empty = some (stS, evS)
      ∧ (∀ a, (stB.address_data a).balance = (stS.address_data a).balance)
      ∧ (∀ a, (stB.address_data a).number_minted
            = (stS.address_data a).number_minted)
      ∧ stB.current_index = stS.current_index
      ∧ evB = evS :=
  batch_mint_matches_sequential_single_mints ERC721AState.empty 1 2 7
    (by decide) (by decide) (by norm_num [U64MOD])

/-! ## ERC721A: closed forms of the transfer and burn writes -/

/-- `transferWrite` in closed form: approval slot set to `toAddr`
(the code's `_approve(to, ...)`), the two balance moves, the explicit
slot at `token_id`, and the conditional successor materialization. -/
theorem transferWrite_eq (st : ERC721AState) (prev : TokenOwnership)
    (fromAddr toAddr token_id timestamp : Nat) :
    transferWrite st prev fromAddr toAddr token_id timestamp =
      { current_index := st.current_index,
        burn_counter := st.burn_counter,
        ownerships := fun j =>
          if (st.ownerships (token_id + 1)).addr = 0
              ∧ token_id + 1 ≠ st.current_index then
            (if j = token_id + 1 then
              { st.ownerships (token_id + 1) with
                  addr := fromAddr,
                  start_timestamp := prev.start_timestamp }
             else if j = token_id then
              { st.ownerships token_id with
                  addr := toAddr, start_timestamp := timestamp }
             else st.ownerships j)
          else
            (if j = token_id then
              { st.ownerships token_id with
                  addr := toAddr, start_timestamp := timestamp }
             else st.ownerships j),
        address_data := fun b =>
          if b = toAddr then
            { (if toAddr = fromAddr then
                 { st.address_data fromAddr with
                     balance := ((st.address_data fromAddr).balance
                       + U64MOD - 1) % U64MOD }
               else st.address_data toAddr) with
                balance := ((if toAddr = fromAddr then
                    { st.address_data fromAddr with
                        balance := ((st.address_data fromAddr).balance
                          + U64MOD - 1) % U64MOD }
                  else st.address_data toAddr).balance + 1) % U64MOD }
          else if b = fromAddr then
            { st.address_data fromAddr with
                balance := ((st.address_data fromAddr).balance
                  + U64MOD - 1) % U64MOD }
          else st.address_data b,
        token_approvals := fun i =>
          if i = token_id then toAddr else st.token_approvals i,
        operator_approvals := st.operator_approvals } := by
  unfold transferWrite _approve setTokenApproval setAddressData setOwnership
  dsimp only
  rw [if_neg (show ¬ (token_id + 1 = token_id) by omega)]
  by_cases c1 : (st.ownerships (token_id + 1)).addr = 0
  · by_cases c2 : token_id + 1 ≠ st.current_index
    · rw [if_pos c1, if_pos c2]
      simp only [eq_true (show (st.ownerships (token_id + 1)).addr = 0
        ∧ token_id + 1 ≠ st.current_index from ⟨c1, c2⟩), if_true, ite_true]
    · rw [if_pos c1, if_neg c2]
      simp only [eq_false (show ¬ ((st.ownerships (token_id + 1)).addr = 0
        ∧ token_id + 1 ≠ st.current_index) from fun h => c2 h.2), if_false,
        ite_false]
  · rw [if_neg c1]
    simp only [eq_false (show ¬ ((st.ownerships (token_id + 1)).addr = 0
      ∧ token_id + 1 ≠ st.current_index) from fun h => c1 h.1), if_false,
      ite_false]

/-- `burnWrite` in closed form: approval cleared to zero, balance
decrement and `number_burned` increment, the slot marked burned with
owner retained, the conditional successor materialization, and the
burn-counter increment. -/
theorem burnWrite_eq (st : ERC721AState) (prev : TokenOwnership)
    (fromAddr token_id timestamp : Nat) :
    burnWrite st prev fromAddr token_id timestamp =
      { current_index := st.current_index,
        burn_counter := st.burn_counter + 1,
        ownerships := fun j =>
          if (st.ownerships (token_id + 1)).addr = 0
              ∧ token_id + 1 ≠ st.current_index then
            (if j = token_id + 1 then
              { st.ownerships (token_id + 1) with
                  addr := fromAddr,
                  start_timestamp := prev.start_timestamp }
             else if j = token_id then
              { st.ownerships token_id with
                  addr := fromAddr, start_timestamp := timestamp,
                  burned := true }
             else st.ownerships j)
          else
            (if j = token_id then
              { st.ownerships token_id with
                  addr := fromAddr, start_timestamp := timestamp,
                  burned := true }
             else st.ownerships j),
        address_data := fun b =>
          if b = fromAddr then
            { st.address_data fromAddr with
                balance := ((st.address_data fromAddr).balance
                  + U64MOD - 1) % U64MOD,
                number_burned :=
                  ((st.address_data fromAddr).number_burned + 1) % U64MOD }
          else st.address_data b,
        token_approvals := fun i =>
          if i = token_id then 0 else st.token_approvals i,
        operator_approvals := st.operator_approvals } := by
  unfold burnWrite _approve setTokenApproval setAddressData setOwnership
  dsimp only
  rw [if_neg (show ¬ (token_id + 1 = token_id) by omega)]
  by_cases c1 : (st.ownerships (token_id + 1)).addr = 0
  · by_cases c2 : token_id + 1 ≠ st.current_index
    · rw [if_pos c1, if_pos c2]
      simp only [eq_true (show (st.ownerships (token_id + 1)).addr = 0
        ∧ token_id + 1 ≠ st.current_index from ⟨c1, c2⟩), if_true, ite_true]
    · rw [if_pos c1, if_neg c2]
      simp only [eq_false (show ¬ ((st.ownerships (token_id + 1)).addr = 0
        ∧ token_id + 1 ≠ st.current_index) from fun h => c2 h.2), if_false,
        ite_false]
  · rw [if_neg c1]
    simp only [eq_false (show ¬ ((st.ownerships (token_id + 1)).addr = 0
      ∧ token_id + 1 ≠ st.current_index) from fun h => c1 h.1), if_false,
      ite_false]

/-! ## ERC721A: scan-termination invariant on reachable states -/

/-- `transferWrite` never erases an explicit owner: any slot with a
non-zero owner still has one afterwards (the writes install `toAddr`
and possibly `fromAddr`, both non-zero). -/
theorem transferWrite_addr_mono
    (st : ERC721AState) (prev : TokenOwnership)
    (fromAddr toAddr token_id timestamp : Nat)
    (hf : fromAddr ≠ 0) (ht : toAddr ≠ 0) (j : Nat)
    (hj : (st.ownerships j).addr ≠ 0) :
    ((transferWrite st prev fromAddr toAddr token_id timestamp).ownerships
        j).addr ≠ 0 := by
  rw [transferWrite_eq]
  dsimp only
  split_ifs <;> first | exact hf | exact ht | exact hj

/-- `burnWrite` never erases an explicit owner (the writes install
`fromAddr` at the burned id and possibly at its successor). -/
theorem burnWrite_addr_mono
    (st : ERC721AState) (prev : TokenOwnership)
    (fromAddr token_id timestamp : Nat)
    (hf : fromAddr ≠ 0) (j : Nat)
    (hj : (st.ownerships j).addr ≠ 0) :
    ((burnWrite st prev fromAddr token_id timestamp).ownerships j).addr
      ≠ 0 := by
  rw [burnWrite_eq]
  dsimp only
  split_ifs <;> first | exact hf | exact hj

/-- Inversion of a successful `_burn`: the resolution succeeded and the
result is the `burnWrite` state with the `Approval`/`Transfer` pair. -/
theorem _burn_ok_inv {st st2 : ERC721AState}
    {sender token_id timestamp : Nat} {approval_check : Bool}
    {evs : List Event}
    (h : _burn st sender token_id approval_check timestamp
          = some (Except.ok (st2, evs))) :
    ∃ prev, _ownership_of st token_id = some (Except.ok prev)
      ∧ st2 = burnWrite st prev prev.addr token_id timestamp
      ∧ evs = [Event.approvalEv prev.addr 0 token_id,
               Event.transferEv prev.addr 0 token_id] := by
  unfold _burn at h
  cases hos : _ownership_of st token_id with
  | none => rw [hos] at h; simp at h
  | some res =>
    rw [hos] at h
    cases res with
    | error e => simp at h
    | ok prev =>
      dsimp only at h
      cases approval_check with
      | false =>
        rw [if_neg (by simp)] at h
        dsimp only at h
        simp only [Option.some.injEq, Except.ok.injEq, Prod.mk.injEq] at h
        exact ⟨prev, rfl, h.1.symm, h.2.symm⟩
      | true =>
        rw [if_pos rfl] at h
        cases happ : isApprovedOrOwner st sender prev.addr token_id with
        | error e => rw [happ] at h; simp at h
        | ok appr =>
          rw [happ] at h
          dsimp only at h
          cases appr with
          | false => rw [if_neg (by simp)] at h; simp at h
          | true =>
            rw [if_pos rfl] at h
            dsimp only at h
            simp only [Option.some.injEq, Except.ok.injEq,
              Prod.mk.injEq] at h
            exact ⟨prev, rfl, h.1.symm, h.2.symm⟩

/-- `burnWrite` does not move the high-water mark. -/
theorem burnWrite_current_index
    (st : ERC721AState) (prev : TokenOwnership)
    (fromAddr token_id timestamp : Nat) :
    (burnWrite st prev fromAddr token_id timestamp).current_index
      = st.current_index := by
  rw [burnWrite_eq]

/-- `burnWrite` increments the burn counter by exactly one. -/
theorem burnWrite_burn_counter
    (st : ERC721AState) (prev : TokenOwnership)
    (fromAddr token_id timestamp : Nat) :
    (burnWrite st prev fromAddr token_id timestamp).burn_counter
      = st.burn_counter + 1 := by
  rw [burnWrite_eq]

/-- Transport of the scan-termination invariant along a state change
that keeps the high-water mark and never erases explicit owners. -/
theorem ScanInv_mono {st st2 : ERC721AState}
    (hci : st2.current_index = st.current_index)
    (hmono : ∀ j, (st.ownerships j).addr ≠ 0 →
      (st2.ownerships j).addr ≠ 0)
    (h : ScanInv st) : ScanInv st2 := by
  intro t ht
  rw [hci] at ht
  obtain ⟨j, hj, hja⟩ := h t ht
  exact ⟨j, hj, hmono j hja⟩

/-- Every reachable ledger state satisfies the scan-termination
invariant. -/
theorem reachable_scanInv {st : ERC721AState} (h : Reachable st) :
    ScanInv st := by
  induction h with
  | init =>
    intro t ht
    simp [ERC721AState.empty] at ht
  | mint hr hop ih =>
    obtain ⟨h0, h1, hq, hci, hbc, hown, hdat, hap, hop2, hevs⟩ := _mint_ok_inv hop
    intro t ht
    rw [hci] at ht
    rename_i st st2 toAddr q ts evs
    by_cases hlt : t < st.current_index
    · obtain ⟨j, hj, hja⟩ := ih t hlt
      refine ⟨j, hj, ?_⟩
      simp only [hown]
      rw [if_neg (by omega)]
      exact hja
    · refine ⟨st.current_index, by omega, ?_⟩
      simp only [hown, if_true, ite_true]
      exact h0
  | transfer hr hop ih =>
    obtain ⟨prev, hos, hpf, ht0, rfl, hevs⟩ := _transfer_ok_inv hop
    have hf : _ ≠ 0 := hpf ▸ (_ownership_of_ok hos).2.1
    exact ScanInv_mono (transferWrite_current_index _ _ _ _ _ _)
      (transferWrite_addr_mono _ _ _ _ _ _ hf ht0) ih
  | burn hr hop ih =>
    obtain ⟨prev, hos, rfl, hevs⟩ := _burn_ok_inv hop
    have hf : prev.addr ≠ 0 := (_ownership_of_ok hos).2.1
    exact ScanInv_mono (burnWrite_current_index _ _ _ _ _)
      (burnWrite_addr_mono _ _ _ _ _ hf) ih

/-- C9: on every reachable ledger state, for every id below the
high-water mark, `owner_of` terminates (the backward scan stops before
running past id 0) and fails with `OwnerQueryForNonexistentToken`
exactly when the slot is marked burned; otherwise it returns a single
well-defined non-zero owner. -/
theorem owner_of_total_on_reachable
    (st : ERC721AState) (t : Nat) (hst : Reachable st)
    (ht : t < st.current_index) :
    ∃ r, owner_of st t = some r
      ∧ (r = Except.error ERC721Error.ownerQueryForNonexistentToken
            ↔ (st.ownerships t).burned = true)
      ∧ ((st.ownerships t).burned = false →
          ∃ a, r = Except.ok a ∧ a ≠ 0) := by
  have inv := reachable_scanInv hst
  unfold owner_of _ownership_of
  rw [if_pos ht]
  dsimp only
  by_cases hb : (st.ownerships t).burned = true
  · rw [if_pos hb]
    refine ⟨Except.error ERC721Error.ownerQueryForNonexistentToken,
      rfl, by simp [hb], ?_⟩
    intro hf
    rw [hf] at hb
    exact absurd hb (by simp)
  · rw [if_neg hb]
    by_cases ha : (st.ownerships t).addr ≠ 0
    · rw [if_pos ha]
      exact ⟨Except.ok (st.ownerships t).addr, rfl, by simp [hb],
        fun _ => ⟨(st.ownerships t).addr, rfl, ha⟩⟩
    · rw [if_neg ha]
      obtain ⟨j, hj, hja⟩ := inv t ht
      have hjt : j < t := by
        rcases Nat.lt_or_ge j t with h | h
        · exact h
        · have : j = t := by omega
          subst this
          exact absurd hja ha
      obtain ⟨o, ho⟩ := scanOwnership_total ⟨j, hjt, hja⟩
      rw [ho]
      exact ⟨Except.ok o.addr, rfl, by simp [hb],
        fun _ => ⟨o.addr, rfl, scanOwnership_some_addr_ne ho⟩⟩

/-- Witness for C9 at the reachable two-token ledger `stTwo` and the
implicitly owned id 1. -/
theorem owner_of_total_on_reachable_witness :
    ∃ r, owner_of stTwo 1 = some r
      ∧ (r = Except.error ERC721Error.ownerQueryForNonexistentToken
            ↔ (stTwo.ownerships 1).burned = true)
      ∧ ((stTwo.ownerships 1).burned = false →
          ∃ a, r = Except.ok a ∧ a ≠ 0) :=
  owner_of_total_on_reachable stTwo 1
    (Reachable.mint Reachable.init
      (rfl : _mint ERC721AState.empty 1 2 50
        = some (Except.ok (stTwo,
            [Event.transferEv 0 1 0, Event.transferEv 0 1 1]))))
    (by decide)

/-! ## ERC721A: balance conservation -/

/-- Effect of a pointwise `address_data` update on the balance sum, in
the 64-bit modular ring. -/
theorem sum_balance_update (f : Nat → AddressData) (S : Finset Nat)
    (x : Nat) (d : AddressData) (hx : x ∈ S) :
    (Finset.sum S fun a =>
        (((if a = x then d else f a).balance : Nat) : ZMod U64MOD))
      = (Finset.sum S fun a => (((f a).balance : Nat) : ZMod U64MOD))
        - (((f x).balance : Nat) : ZMod U64MOD)
        + ((d.balance : Nat) : ZMod U64MOD) := by
  rw [← Finset.add_sum_erase S
    (fun a => (((if a = x then d else f a).balance : Nat) : ZMod U64MOD)) hx]
  rw [← Finset.add_sum_erase S
    (fun a => (((f a).balance : Nat) : ZMod U64MOD)) hx]
  have h1 : (Finset.sum (S.erase x) fun a =>
        (((if a = x then d else f a).balance : Nat) : ZMod U64MOD))
      = Finset.sum (S.erase x)
          fun a => (((f a).balance : Nat) : ZMod U64MOD) := by
    refine Finset.sum_congr rfl fun b hb => ?_
    rw [if_neg (Finset.ne_of_mem_erase hb)]
  rw [h1, if_pos rfl]
  ring

/-- Extending a covering set of addresses does not change the balance
sum. -/
theorem balanceSum_subset {st : ERC721AState} {S T : Finset Nat}
    (hsub : S ⊆ T) (hcov : coversOwners st S) :
    balanceSum st T = balanceSum st S := by
  unfold balanceSum
  refine (Finset.sum_subset hsub fun x _ hnx => ?_).symm
  have hb : (st.address_data x).balance = 0 := by
    by_contra hb
    exact hnx (hcov x hb)
  rw [hb]
  exact Nat.cast_zero

/-- Cast of a plain wrapped addition. -/
theorem zmod_cast_add_plain (x q : Nat) :
    (((x + q) % U64MOD : Nat) : ZMod U64MOD)
      = (x : ZMod U64MOD) + (q : ZMod U64MOD) := by
  rw [ZMod.natCast_mod, Nat.cast_add]

/-- Cast of the wrapping 64-bit decrement `x + 2^64 - 1`. -/
theorem zmod_cast_sub_one (x : Nat) :
    (((x + U64MOD - 1) % U64MOD : Nat) : ZMod U64MOD)
      = (x : ZMod U64MOD) - 1 := by
  have h1 : (1 : Nat) ≤ U64MOD := by norm_num [U64MOD]
  have h : x + U64MOD - 1 = x + (U64MOD - 1) := by omega
  rw [ZMod.natCast_mod, h, Nat.cast_add, Nat.cast_sub h1,
    ZMod.natCast_self]
  push_cast
  ring

/-- C10 (counterexample): two mints of `2^64 - 1` tokens to address 1
wrap the 64-bit balance field, so the exact equality
"sum of balances = next_id - burn_count - start_id" fails on this
reachable state. -/
theorem sum_balance_vs_supply_counterexample :
    Reachable stBigB
    ∧ coversOwners stBigB {1}
    ∧ ¬ (Finset.sum {1} (fun a => (stBigB.address_data a).balance)
          = stBigB.current_index - stBigB.burn_counter - 0) := by
  have e1 : _mint ERC721AState.empty 1 (2 ^ 64 - 1) 5
      = some (Except.ok (stBigA, (List.range (2 ^ 64 - 1)).map
          (fun i => Event.transferEv 0 1 (0 + i)))) := rfl
  have e2 : _mint stBigA 1 (2 ^ 64 - 1) 6
      = some (Except.ok (stBigB, (List.range (2 ^ 64 - 1)).map
          (fun i => Event.transferEv 0 1 (stBigA.current_index + i)))) := rfl
  obtain ⟨_, _, _, _, _, _, hdat1, _, _, _⟩ := _mint_ok_inv e1
  obtain ⟨_, _, _, hci2, hbc2, _, hdat2, _, _, _⟩ := _mint_ok_inv e2
  have hci1 : stBigA.current_index = 2 ^ 64 - 1 := by
    obtain ⟨_, _, _, h, _⟩ := _mint_ok_inv e1
    simpa [ERC721AState.empty] using h
  refine ⟨Reachable.mint (Reachable.mint Reachable.init e1) e2, ?_, ?_⟩
  · intro a ha
    simp only [Finset.mem_singleton]
    by_contra hna
    rw [hdat2] at ha
    dsimp only at ha
    rw [if_neg hna] at ha
    rw [hdat1] at ha
    dsimp only at ha
    rw [if_neg hna] at ha
    exact ha rfl
  · have hb1 : (stBigA.address_data 1).balance = 2 ^ 64 - 1 := by
      rw [hdat1]
      norm_num [ERC721AState.empty, AddressData.init, U64MOD]
    have hb2 : (stBigB.address_data 1).balance = 2 ^ 64 - 2 := by
      rw [hdat2, hb1]
      norm_num [U64MOD]
    have hbc1 : stBigA.burn_counter = 0 := by
      obtain ⟨_, _, _, _, h, _⟩ := _mint_ok_inv e1
      simpa [ERC721AState.empty] using h
    rw [Finset.sum_singleton, hb2, hci2, hbc2, hci1, hbc1]
    norm_num

/-- C10 (amended): on every reachable ledger state, for every finite
set of addresses containing all non-zero balances, the sum of the
per-owner 64-bit balance fields equals
`current_index - burn_counter - start_id` in the ring `ZMod (2^64)` —
conservation holds modulo `2^64` (and hence exactly while no balance
field has wrapped). -/
theorem balances_conserved_mod_u64 {st : ERC721AState}
    (hst : Reachable st) :
    ∀ S : Finset Nat, coversOwners st S →
      balanceSum st S
        = (st.current_index : ZMod U64MOD)
          - (st.burn_counter : ZMod U64MOD) := by
  induction hst with
  | init =>
    intro S _
    unfold balanceSum
    simp [ERC721AState.empty, AddressData.init]
  | mint hr hop ih =>
    rename_i st st2 toAddr q ts evs
    obtain ⟨h0, h1, hq, hci, hbc, hown, hdat, hap, hop2, hevs⟩ := _mint_ok_inv hop
    intro S hS
    have hsub : S ⊆ insert toAddr S := Finset.subset_insert _ _
    have hmem : toAddr ∈ insert toAddr S := Finset.mem_insert_self _ _
    have hdat_pt : ∀ a, a ≠ toAddr →
        st2.address_data a = st.address_data a := by
      intro a ha
      rw [hdat]
      dsimp only
      rw [if_neg ha]
    have hcov2 : coversOwners st (insert toAddr S) := by
      intro a ha
      by_cases hat : a = toAddr
      · exact hat ▸ hmem
      · refine Finset.mem_insert_of_mem (hS a ?_)
        rw [hdat_pt a hat]
        exact ha
    have hIH := ih (insert toAddr S) hcov2
    have he : balanceSum st2 (insert toAddr S) = balanceSum st2 S :=
      balanceSum_subset hsub hS
    have hsum : balanceSum st2 (insert toAddr S)
        = balanceSum st (insert toAddr S)
          - (((st.address_data toAddr).balance : Nat) : ZMod U64MOD)
          + ((((st.address_data toAddr).balance + q) % U64MOD
              : Nat) : ZMod U64MOD) := by
      unfold balanceSum
      rw [hdat]
      dsimp only
      exact sum_balance_update st.address_data (insert toAddr S) toAddr _
        hmem
    rw [← he, hsum, hIH, hci, hbc, zmod_cast_add_plain]
    push_cast
    ring
  | transfer hr hop ih =>
    obtain ⟨prev, hos, hpf, ht0, rfl, hevs⟩ := _transfer_ok_inv hop
    rename_i st sender fromAddr toAddr token_id ts evs
    intro S hS
    have hT := transferWrite_eq st prev fromAddr toAddr token_id ts
    set S2 := insert fromAddr (insert toAddr S) with hS2def
    have hsub : S ⊆ S2 := fun a ha =>
      Finset.mem_insert_of_mem (Finset.mem_insert_of_mem ha)
    have hmemF : fromAddr ∈ S2 := Finset.mem_insert_self _ _
    have hmemT : toAddr ∈ S2 :=
      Finset.mem_insert_of_mem (Finset.mem_insert_self _ _)
    have hdat_pt : ∀ a, a ≠ toAddr → a ≠ fromAddr →
        (transferWrite st prev fromAddr toAddr token_id ts).address_data a
          = st.address_data a := by
      intro a h1 h2
      rw [hT]
      dsimp only
      rw [if_neg h1, if_neg h2]
    have hcov2 : coversOwners st S2 := by
      intro a ha
      by_cases h1 : a = fromAddr
      · exact h1 ▸ hmemF
      · by_cases h2 : a = toAddr
        · exact h2 ▸ hmemT
        · refine hsub (hS a ?_)
          rw [hdat_pt a h2 h1]
          exact ha
    have hIH := ih S2 hcov2
    have he : balanceSum
        (transferWrite st prev fromAddr toAddr token_id ts) S2
        = balanceSum
            (transferWrite st prev fromAddr toAddr token_id ts) S :=
      balanceSum_subset hsub hS
    have hsum : balanceSum
        (transferWrite st prev fromAddr toAddr token_id ts) S2
        = balanceSum st S2 := by
      unfold balanceSum
      rw [hT]
      dsimp only
      rw [sum_balance_update
        (fun b => if b = fromAddr then
            { st.address_data fromAddr with
                balance := ((st.address_data fromAddr).balance
                  + U64MOD - 1) % U64MOD }
          else st.address_data b) S2 toAddr _ hmemT]
      rw [sum_balance_update st.address_data S2 fromAddr _ hmemF]
      dsimp only
      rw [zmod_cast_sub_one]
      by_cases hft : toAddr = fromAddr
      · rw [if_pos hft]
        dsimp only
        rw [zmod_cast_add_plain, zmod_cast_sub_one]
        push_cast
        ring
      · rw [if_neg hft]
        rw [zmod_cast_add_plain]
        push_cast
        ring
    rw [← he, hsum, hIH, transferWrite_current_index,
      transferWrite_burn_counter]
  | burn hr hop ih =>
    obtain ⟨prev, hos, rfl, hevs⟩ := _burn_ok_inv hop
    rename_i st sender token_id ts approval_check evs
    intro S hS
    have hB := burnWrite_eq st prev prev.addr token_id ts
    set S2 := insert prev.addr S with hS2def
    have hsub : S ⊆ S2 := Finset.subset_insert _ _
    have hmemF : prev.addr ∈ S2 := Finset.mem_insert_self _ _
    have hdat_pt : ∀ a, a ≠ prev.addr →
        (burnWrite st prev prev.addr token_id ts).address_data a
          = st.address_data a := by
      intro a h1
      rw [hB]
      dsimp only
      rw [if_neg h1]
    have hcov2 : coversOwners st S2 := by
      intro a ha
      by_cases h1 : a = prev.addr
      · exact h1 ▸ hmemF
      · refine hsub (hS a ?_)
        rw [hdat_pt a h1]
        exact ha
    have hIH := ih S2 hcov2
    have he : balanceSum (burnWrite st prev prev.addr token_id ts) S2
        = balanceSum (burnWrite st prev prev.addr token_id ts) S :=
      balanceSum_subset hsub hS
    have hsum : balanceSum (burnWrite st prev prev.addr token_id ts) S2
        = balanceSum st S2 - 1 := by
      unfold balanceSum
      rw [hB]
      dsimp only
      rw [sum_balance_update st.address_data S2 prev.addr _ hmemF]
      dsimp only
      rw [zmod_cast_sub_one]
      ring
    rw [← he, hsum, hIH, burnWrite_current_index, burnWrite_burn_counter]
    push_cast
    ring

/-- Witness for the amended C10 theorem on the reachable one-token
ledger `stOne` with covering set `{1}`. -/
theorem balances_conserved_mod_u64_witness :
    balanceSum stOne {1}
      = (stOne.current_index : ZMod U64MOD)
        - (stOne.burn_counter : ZMod U64MOD) :=
  have hre : Reachable stOne := Reachable.mint Reachable.init
    (rfl : _mint ERC721AState.empty 1 1 10
      = some (Except.ok (stOne, [Event.transferEv 0 1 0])))
  balances_conserved_mod_u64 hre {1}
    (by
      intro a ha
      simp only [Finset.mem_singleton]
      by_contra hna
      have e1 : _mint ERC721AState.empty 1 1 10
          = some (Except.ok (stOne, [Event.transferEv 0 1 0])) := rfl
      obtain ⟨_, _, _, _, _, _, hdat1, _, _, _⟩ := _mint_ok_inv e1
      rw [hdat1] at ha
      dsimp only at ha
      rw [if_neg hna] at ha
      exact ha rfl)

end Inkmate
